import Mathlib

/-!
Shallow embedding of the seating-reservation logic of `src/streamlit_app.py`
(the "Grad 2026 Seating" app).

The app keeps two spreadsheet-backed collections:
  * `Tables`  — rows with columns `Table_ID`, `Capacity`, `Taken`, `Guest_List`
    (plus map coordinates, irrelevant to the reservation logic);
  * `Students` — rows with columns `Last Name`, `First Name`, `Tickets`.

A booking attempt in the sidebar (lines 59-120, duplicated at 204-251) does:
  1. resolve the student via `student_df[(Last==sel_last)&(First==sel_first)].iloc[0]`
     and read `ticket_count = int(student_info['Tickets'])`;
  2. duplicate check: `df[df['Guest_List'].str.contains(full_name, na=False)]`
     (case-SENSITIVE substring scan; NaN cells count as no match);
  3. eligibility filter: `df['Remaining'] = df['Capacity'] - df['Taken']`,
     `valid_tables = df[df['Remaining'] >= ticket_count]`;
  4. the user picks a `Table_ID` from `valid_tables`; on confirm the code takes
     `idx = df[df['Table_ID'] == selection].index[0]` (first matching row),
     does `df.at[idx,'Taken'] += ticket_count`, and appends
     `f"{full_name} ({ticket_count}), "` to that row's `Guest_List`, treating a
     NaN cell or the literal string "nan" as the empty string.

Pandas NaN cells in `Guest_List` are modelled by `Option String` (`none` = NaN).
Counts are modelled as `Int` (pandas integer columns).
-/

namespace GradSeating

/-- Character-list prefix test (`a` is a prefix of `b`), used to build the
substring test that models pandas `Series.str.contains` with a plain-text
needle. -/
def isPrefixSeq : List Char → List Char → Bool
  | [], _ => true
  | _ :: _, [] => false
  | a :: as, b :: bs => a == b && isPrefixSeq as bs

/-- Character-list substring test: does `needle` occur contiguously in the
haystack? Models Python `needle in hay` / pandas `str.contains(needle)` for a
needle without regex metacharacters (all names in this app are plain text). -/
def containsSeq (needle : List Char) : List Char → Bool
  | [] => isPrefixSeq needle []
  | c :: hs => isPrefixSeq needle (c :: hs) || containsSeq needle hs

/-- String-level substring test: `strContains hay needle` is Python
`needle in hay`. -/
def strContains (hay needle : String) : Bool :=
  containsSeq needle.data hay.data

/-- Lower-casing of a string, helper for stating what a case-insensitive scan
(pandas `str.contains(..., case=False)`) would do. -/
def lowerStr (s : String) : String :=
  String.mk (s.data.map Char.toLower)

/-- Case-insensitive substring test, what pandas
`str.contains(needle, case=False)` computes (the app's search box at line 43
uses this, its duplicate check at line 84 does not). -/
def strContainsCI (hay needle : String) : Bool :=
  strContains (lowerStr hay) (lowerStr needle)

/-- One row of the `Tables` worksheet. `Guest_List = none` models a pandas NaN
cell. The map coordinates `X`, `Y` play no role in the reservation logic and
are omitted. -/
structure Table where
  Table_ID : String
  Capacity : Int
  Taken : Int
  Guest_List : Option String
deriving Repr, DecidableEq

/-- One row of the `Students` worksheet. -/
structure Student where
  lastName : String
  firstName : String
  Tickets : Int
deriving Repr, DecidableEq

/-- Derived column `Remaining = Capacity - Taken` (lines 95, 146, 233). -/
def remaining (t : Table) : Int :=
  t.Capacity - t.Taken

/-- Roster lookup, lines 75-78:
`student_df[(student_df['Last Name'] == sel_last) & (student_df['First Name'] == sel_first)].iloc[0]`.
`.iloc[0]` takes the first row of the filtered frame; with an empty filter
result it raises, modelled here by `none` (the UI cannot produce that case:
both names are picked from select boxes filled from the roster itself). -/
def student_info (roster : List Student) (sel_last sel_first : String) :
    Option Student :=
  (roster.filter fun s => s.lastName == sel_last && s.firstName == sel_first).head?

/-- Duplicate check, line 84:
`already_seated_row = df[df['Guest_List'].str.contains(full_name, na=False)]`,
whose first row (`.iloc[0]`) is the table reported in the warning. `na=False`
makes a NaN guest list count as no match. Note there is no `case=False` here:
the scan is case-sensitive. -/
def already_seated_row (tables : List Table) (full_name : String) :
    Option Table :=
  tables.find? fun t =>
    match t.Guest_List with
    | none => false
    | some g => strContains g full_name

/-- Eligibility filter, lines 95-96:
`df['Remaining'] = df['Capacity'] - df['Taken']; valid_tables = df[df['Remaining'] >= ticket_count]`. -/
def valid_tables (tables : List Table) (ticket_count : Int) : List Table :=
  tables.filter fun t => ticket_count ≤ remaining t

/-- Normalisation of a `Guest_List` cell before appending, lines 110 / 242:
`str(df.at[idx,'Guest_List']) if pd.notna(df.at[idx,'Guest_List']) and df.at[idx,'Guest_List'] != "nan" else ""`. -/
def current_list (g : Option String) : String :=
  match g with
  | none => ""
  | some s => if s = "nan" then "" else s

/-- The text appended on commit, lines 111 / 243:
`f"{full_name} ({ticket_count}), "` — note the trailing comma-space. -/
def entry (full_name : String) (ticket_count : Int) : String :=
  full_name ++ " (" ++ toString ticket_count ++ "), "

/-- The per-row mutation of the commit block, lines 106-111:
`df.at[idx,'Taken'] += ticket_count` followed by the `Guest_List` append. -/
def commitRow (full_name : String) (ticket_count : Int) (t : Table) : Table :=
  { t with
    Taken := t.Taken + ticket_count
    Guest_List := some (current_list t.Guest_List ++ entry full_name ticket_count) }

/-- Applies `f` to the first row whose `Table_ID` equals `selection`, leaving
every other row untouched: this is `idx = df[df['Table_ID'] == selection].index[0]`
followed by the two `df.at[idx, ...]` cell writes (lines 103-111). When no row
matches, the script would raise on `.index[0]`; the UI only offers ids drawn
from `valid_tables`, so theorems carry that membership as a hypothesis. -/
def updateFirst (tables : List Table) (selection : String) (f : Table → Table) :
    List Table :=
  match tables with
  | [] => []
  | t :: ts =>
    if t.Table_ID = selection then f t :: ts
    else t :: updateFirst ts selection f

/-- Outcome of one booking attempt. `booked` carries the mutated `Tables`
snapshot that line 114 persists (`conn.update(worksheet="Tables", data=df)`);
the two failure outcomes perform no write at all. -/
inductive BookResult where
  | alreadySeated (tableId : String)
  | noCapacity
  | booked (tables : List Table)
deriving Repr, DecidableEq

/-- One booking attempt over a fresh snapshot, the sidebar flow of lines
84-120: duplicate check first (warning at line 89 names the first matching
row's `Table_ID` and the booking stops), then the eligibility filter (line
120's error when empty), then the commit on the user-picked `selection`. -/
def bookAttempt (tables : List Table) (full_name : String) (ticket_count : Int)
    (selection : String) : BookResult :=
  match already_seated_row tables full_name with
  | some t => .alreadySeated t.Table_ID
  | none =>
    if valid_tables tables ticket_count = [] then .noCapacity
    else .booked (updateFirst tables selection (commitRow full_name ticket_count))

/-- Whole sidebar flow, lines 63-120: resolve the student from the two name
select boxes, build `full_name = f"{sel_first} {sel_last}"`, read
`ticket_count = int(student_info['Tickets'])`, then run the booking attempt.
The party size is the roster's `Tickets` value: nothing the requester enters
can change it. `none` models the impossible `.iloc[0]` failure. -/
def sidebarBook (tables : List Table) (roster : List Student)
    (sel_last sel_first selection : String) : Option BookResult :=
  match student_info roster sel_last sel_first with
  | none => none
  | some info =>
    some (bookAttempt tables (sel_first ++ " " ++ sel_last) info.Tickets selection)

/-- Status classification for the map, lines 149-154: `get_status` returns
"🔴 Sold Out" when `Remaining <= 0`, "🟡 Nearly Full" when `Remaining <= 4`,
else "🟢 Available". -/
def get_status (t : Table) : String :=
  if remaining t ≤ 0 then "🔴 Sold Out"
  else if remaining t ≤ 4 then "🟡 Nearly Full"
  else "🟢 Available"

/-- Status classification as the spec words it (§4.3): SoldOut when
`remaining <= 0`, NearlyFull when `remaining < threshold`, else Available,
with `threshold` a configurable constant. Stated for comparison with
`get_status`. -/
def statusSpec (threshold : Int) (t : Table) : String :=
  if remaining t ≤ 0 then "🔴 Sold Out"
  else if remaining t < threshold then "🟡 Nearly Full"
  else "🟢 Available"

/-- Modelled from the spec: whitespace test used by access-code trimming. The
access-code gate is absent from `src/streamlit_app.py`; the spec (§4.1, §4.2
step 2) is the only description of it. -/
def isSpace (c : Char) : Bool :=
  c == ' ' || c == '\t' || c == '\n' || c == '\r'

/-- Modelled from the spec: no access-code normalization exists in
`src/streamlit_app.py`; §4.1 says normalization "strips a trailing '.0'-style
suffix and surrounding whitespace before equality comparison". -/
def normalizeCode (s : String) : String :=
  let trimmed := ((s.data.dropWhile isSpace).reverse.dropWhile isSpace).reverse
  let rev := trimmed.reverse
  String.mk (if rev.take 2 = ['0', '.'] then (rev.drop 2).reverse else trimmed)

/-- Modelled from the spec: `accessCodeMatches(record, candidateCode)` of §4.1
— equality of both sides after normalization; absent from the source. -/
def accessCodeMatches (stored candidate : String) : Bool :=
  normalizeCode stored == normalizeCode candidate

/-- Modelled from the spec: outcome of the access gate of §4.2 step 2; absent
from the source. -/
inductive AccessCheck where
  | notYetAttempted
  | denied
  | granted
deriving Repr, DecidableEq

/-- Modelled from the spec: the access gate of §4.2 step 2, absent from the
source — an empty submitted code is treated as "not yet attempted" (never a
denial), a non-empty mismatch is `AccessDenied`, a match passes. -/
def accessCheck (stored submitted : String) : AccessCheck :=
  if submitted = "" then .notYetAttempted
  else if accessCodeMatches stored submitted then .granted
  else .denied

/-- Modelled from the spec: the gated booking variant (§4.2), absent from the
source — only a granted access check reaches the reservation engine; any
other gate outcome performs no mutation (`none`: nothing is written). -/
def gatedBookAttempt (stored submitted : String) (tables : List Table)
    (fn : String) (tc : Int) (sel : String) : Option BookResult :=
  match accessCheck stored submitted with
  | .granted => some (bookAttempt tables fn tc sel)
  | _ => none

/-- A needle is a prefix of itself followed by anything. -/
theorem isPrefixSeq_self_append (n y : List Char) :
    isPrefixSeq n (n ++ y) = true := by
  induction n with
  | nil => rfl
  | cons c cs ih => simp [isPrefixSeq, ih]

/-- The empty needle occurs in every haystack. -/
theorem containsSeq_nil_needle (hay : List Char) :
    containsSeq [] hay = true := by
  cases hay <;> simp [containsSeq, isPrefixSeq]

/-- Occurrence is preserved by consing onto the haystack. -/
theorem containsSeq_cons_of (n t : List Char) (c : Char)
    (h : containsSeq n t = true) : containsSeq n (c :: t) = true := by
  simp [containsSeq, h]

/-- Occurrence is preserved by prepending to the haystack. -/
theorem containsSeq_append_left (n s t : List Char)
    (h : containsSeq n t = true) : containsSeq n (s ++ t) = true := by
  induction s with
  | nil => simpa using h
  | cons c cs ih => exact containsSeq_cons_of n (cs ++ t) c ih

/-- A needle occurs in itself followed by anything. -/
theorem containsSeq_self_append (n y : List Char) :
    containsSeq n (n ++ y) = true := by
  cases n with
  | nil => simpa using containsSeq_nil_needle y
  | cons c cs =>
    simp only [containsSeq, List.cons_append, Bool.or_eq_true]
    left
    exact isPrefixSeq_self_append (c :: cs) y

/-- The committed guest-list text always contains the booked full name as a
substring: `current_list g ++ "{fn} ({tc}), "` contains `fn`. -/
theorem strContains_current_entry (g : Option String) (fn : String) (tc : Int) :
    strContains (current_list g ++ entry fn tc) fn = true := by
  simp only [strContains, entry, String.data_append, List.append_assoc]
  exact containsSeq_append_left _ _ _ (containsSeq_self_append _ _)

/-- When no row before `t` carries the selected id and `t` does, `updateFirst`
rewrites exactly `t` and leaves the rest of the list untouched. -/
theorem updateFirst_append (pre post : List Table) (t : Table) (sel : String)
    (f : Table → Table) (hpre : ∀ p ∈ pre, p.Table_ID ≠ sel)
    (ht : t.Table_ID = sel) :
    updateFirst (pre ++ t :: post) sel f = pre ++ f t :: post := by
  induction pre with
  | nil => simp [updateFirst, ht]
  | cons p ps ih =>
    have hp : p.Table_ID ≠ sel := hpre p (by simp)
    simp only [List.cons_append, updateFirst, if_neg hp]
    exact congrArg (List.cons p) (ih (fun q hq => hpre q (by simp [hq])))

/-- Any list containing the selected id splits at the first row carrying it. -/
theorem exists_first_id (tables : List Table) (sel : String)
    (h : sel ∈ tables.map Table.Table_ID) :
    ∃ pre t post, tables = pre ++ t :: post ∧ t.Table_ID = sel ∧
      ∀ p ∈ pre, p.Table_ID ≠ sel := by
  induction tables with
  | nil => simp at h
  | cons u ts ih =>
    by_cases hu : u.Table_ID = sel
    · exact ⟨[], u, ts, by simp, hu, by simp⟩
    · have h' : sel ∈ ts.map Table.Table_ID := by
        rcases List.mem_map.mp h with ⟨v, hv, hvs⟩
        rcases List.mem_cons.mp hv with rfl | hvts
        · exact absurd hvs hu
        · exact List.mem_map.mpr ⟨v, hvts, hvs⟩
      rcases ih h' with ⟨pre, t, post, heq, hts, hpre⟩
      exact ⟨u :: pre, t, post, by simp [heq], hts,
        fun p hp => by
          rcases List.mem_cons.mp hp with rfl | hp'
          · exact hu
          · exact hpre p hp'⟩

/-- With pairwise-distinct `Table_ID`s (§3 declares id a unique identifier),
two member rows with equal ids are the same row. -/
theorem eq_of_mem_nodup_ids (tables : List Table)
    (hids : (tables.map Table.Table_ID).Nodup) :
    ∀ t ∈ tables, ∀ u ∈ tables, t.Table_ID = u.Table_ID → t = u := by
  induction tables with
  | nil => simp
  | cons v ts ih =>
    rcases List.nodup_cons.mp hids with ⟨hv, hts⟩
    intro t htm u hum hid
    rcases List.mem_cons.mp htm with rfl | ht' <;>
      rcases List.mem_cons.mp hum with rfl | hu'
    · rfl
    · exact absurd (List.mem_map.mpr ⟨u, hu', hid.symm⟩) hv
    · exact absurd (List.mem_map.mpr ⟨t, ht', hid⟩) hv
    · exact ih hts t ht' u hu' hid

/-- A booking attempt that passes the duplicate check and finds a non-empty
candidate set commits `commitRow` on the first row carrying the selected id. -/
theorem bookAttempt_booked_eq (pre post : List Table) (t : Table)
    (fn sel : String) (tc : Int)
    (hpre : ∀ p ∈ pre, p.Table_ID ≠ sel) (ht : t.Table_ID = sel)
    (hdup : already_seated_row (pre ++ t :: post) fn = none)
    (hval : valid_tables (pre ++ t :: post) tc ≠ []) :
    bookAttempt (pre ++ t :: post) fn tc sel =
      .booked (pre ++ commitRow fn tc t :: post) := by
  unfold bookAttempt
  rw [hdup, if_neg hval, updateFirst_append pre post t sel _ hpre ht]

/-- Inversion: a `booked` outcome implies the duplicate check passed, the
candidate set was non-empty, and the result is the `updateFirst` mutation. -/
theorem bookAttempt_booked_inv (tables tables' : List Table)
    (fn sel : String) (tc : Int)
    (hres : bookAttempt tables fn tc sel = .booked tables') :
    already_seated_row tables fn = none ∧
    valid_tables tables tc ≠ [] ∧
    tables' = updateFirst tables sel (commitRow fn tc) := by
  unfold bookAttempt at hres
  cases hfind : already_seated_row tables fn with
  | some u => rw [hfind] at hres; simp at hres
  | none =>
    rw [hfind] at hres
    by_cases hv : valid_tables tables tc = []
    · rw [if_pos hv] at hres; simp at hres
    · rw [if_neg hv] at hres
      exact ⟨rfl, hv, (BookResult.booked.injEq _ _ ▸ hres).symm ▸ rfl⟩

/-- Prepending the empty string is the identity. -/
theorem empty_string_append (s : String) : "" ++ s = s := by
  cases s with
  | mk data => rfl

/-- Claim C1: for every `Tables` snapshot with pairwise-distinct ids in which
`taken` does not exceed `capacity`, a booking committed through the engine
never makes `taken` exceed `capacity`: the commit only targets a table whose
id was offered by the eligibility pre-check `remaining >= ticket_count`
(line 96), so after the commit every row still satisfies
`Taken <= Capacity`. -/
theorem C1_booking_preserves_capacity
    (tables tables' : List Table) (fn sel : String) (tc : Int)
    (hids : (tables.map Table.Table_ID).Nodup)
    (hinv : ∀ t ∈ tables, t.Taken ≤ t.Capacity)
    (hsel : sel ∈ (valid_tables tables tc).map Table.Table_ID)
    (hres : bookAttempt tables fn tc sel = .booked tables') :
    ∀ t ∈ tables', t.Taken ≤ t.Capacity := by
  rcases bookAttempt_booked_inv tables tables' fn sel tc hres with ⟨hdup, hval, htab⟩
  rcases List.mem_map.mp hsel with ⟨u, humem, huid⟩
  have hu : u ∈ tables ∧ tc ≤ remaining u := by
    simpa [valid_tables, List.mem_filter] using humem
  rcases exists_first_id tables sel (List.mem_map.mpr ⟨u, hu.1, huid⟩) with
    ⟨pre, t, post, heq, htid, hpre⟩
  have htu : t = u := by
    refine eq_of_mem_nodup_ids tables hids t ?_ u hu.1 (htid.trans huid.symm)
    rw [heq]
    exact List.mem_append.mpr (Or.inr (List.mem_cons_self _ _))
  subst heq
  rw [updateFirst_append pre post t sel _ hpre htid] at htab
  subst htab
  intro x hx
  rcases List.mem_append.mp hx with hx | hx
  · exact hinv x (List.mem_append.mpr (Or.inl hx))
  · rcases List.mem_cons.mp hx with rfl | hx
    · have hrem : tc ≤ remaining t := htu ▸ hu.2
      simp only [commitRow]
      simp only [remaining] at hrem
      omega
    · exact hinv x (List.mem_append.mpr (Or.inr (List.mem_cons.mpr (Or.inr hx))))

/-- Witness for C1: booking "Sam Lee" (2 seats) on table A2 (capacity 6,
taken 0) yields a row with taken 2, still within capacity. -/
theorem C1_booking_preserves_capacity_witness :
    (Table.mk "A2" 6 2 (some "Sam Lee (2), ")).Taken ≤
      (Table.mk "A2" 6 2 (some "Sam Lee (2), ")).Capacity :=
  C1_booking_preserves_capacity [⟨"A2", 6, 0, some ""⟩]
    [⟨"A2", 6, 2, some "Sam Lee (2), "⟩] "Sam Lee" "A2" 2
    (by decide) (by decide) (by decide) (by decide)
    ⟨"A2", 6, 2, some "Sam Lee (2), "⟩ (by decide)

/-- Claim C2, counterexample: the commit appends `"{fullName} ({partySize}), "`
with a trailing comma-space (line 111), so booking "Sam Lee" with party size 2
onto an empty table yields guestList "Sam Lee (2), ", not exactly
"Sam Lee (2)" as the claim states. -/
theorem C2_trailing_separator_cex :
    bookAttempt [⟨"A2", 6, 0, some ""⟩] "Sam Lee" 2 "A2" =
      .booked [⟨"A2", 6, 2, some "Sam Lee (2), "⟩] ∧
    ("Sam Lee (2), " : String) ≠ "Sam Lee (2)" := by decide

/-- Claim C2 as amended: every successful commit sets the chosen table's taken
to `taken + ticket_count` and appends `"{fullName} ({ticket_count}), "` — with
a trailing comma-space — to that table's guestList, the existing value first
normalised by `current_list` (so an empty or null list starts with the bare
entry and no leading separator). -/
theorem C2_commit_appends_entry (pre post : List Table) (t : Table)
    (fn sel : String) (tc : Int)
    (hpre : ∀ p ∈ pre, p.Table_ID ≠ sel) (ht : t.Table_ID = sel)
    (hdup : already_seated_row (pre ++ t :: post) fn = none)
    (hval : valid_tables (pre ++ t :: post) tc ≠ []) :
    bookAttempt (pre ++ t :: post) fn tc sel =
      .booked (pre ++
        { t with
            Taken := t.Taken + tc
            Guest_List := some (current_list t.Guest_List ++
              (fn ++ " (" ++ toString tc ++ "), ")) } :: post) :=
  bookAttempt_booked_eq pre post t fn sel tc hpre ht hdup hval

/-- Witness for C2: the Sam Lee scenario — capacity 6, taken 0, empty
guestList — commits to taken 2 and guestList "Sam Lee (2), ". -/
theorem C2_commit_appends_entry_witness :
    bookAttempt [⟨"A2", 6, 0, some ""⟩] "Sam Lee" 2 "A2" =
      .booked [⟨"A2", 6, 2, some "Sam Lee (2), "⟩] :=
  C2_commit_appends_entry [] [] ⟨"A2", 6, 0, some ""⟩ "Sam Lee" "A2" 2
    (by simp) rfl (by decide) (by decide)

/-- Claim C3: the candidate set is exactly the tables with
`remaining = capacity - taken >= ticket_count` (inclusive boundary; a table
with remaining 0 is never eligible for a positive party); when the set is
empty and the duplicate check passed, the attempt fails with `noCapacity` and
no mutation occurs; for party size 5 over remainings [0, 3, 5, 10] the
candidate set is exactly the tables with remaining 5 and 10. -/
theorem C3_eligibility_filter :
    (∀ (tables : List Table) (tc : Int) (t : Table),
        t ∈ valid_tables tables tc ↔ t ∈ tables ∧ tc ≤ remaining t) ∧
    (∀ (tables : List Table) (tc : Int) (t : Table),
        0 < tc → remaining t = 0 → t ∉ valid_tables tables tc) ∧
    (∀ (tables : List Table) (fn sel : String) (tc : Int),
        already_seated_row tables fn = none →
        valid_tables tables tc = [] →
        bookAttempt tables fn tc sel = .noCapacity) ∧
    valid_tables [⟨"T0", 10, 10, none⟩, ⟨"T1", 10, 7, none⟩,
        ⟨"T2", 10, 5, none⟩, ⟨"T3", 10, 0, none⟩] 5 =
      [⟨"T2", 10, 5, none⟩, ⟨"T3", 10, 0, none⟩] := by
  refine ⟨?_, ?_, ?_, by decide⟩
  · intro tables tc t
    simp [valid_tables, List.mem_filter]
  · intro tables tc t htc hrem hmem
    have hle := (List.mem_filter.mp hmem).2
    simp only [decide_eq_true_eq] at hle
    rw [hrem] at hle
    omega
  · intro tables fn sel tc hdup hempty
    unfold bookAttempt
    rw [hdup, if_pos hempty]

/-- Witness for C3: a party of 5 over a single full table (capacity 4,
taken 4) fails with `noCapacity`. -/
theorem C3_eligibility_filter_witness :
    bookAttempt [⟨"A1", 4, 4, some ""⟩] "Sam Lee" 5 "A1" = .noCapacity :=
  C3_eligibility_filter.2.2.1 [⟨"A1", 4, 4, some ""⟩] "Sam Lee" "A1" 5
    (by decide) (by decide)

/-- Claim C4, counterexample: the duplicate check of line 84 has no
`case=False`, so it is case-SENSITIVE — a guest list holding "sam lee (2), "
is found by a case-insensitive scan for "Sam Lee" but not by the code, whose
booking attempt proceeds instead of failing with AlreadySeated as the claim
predicts. -/
theorem C4_case_insensitive_cex :
    strContainsCI "sam lee (2), " "Sam Lee" = true ∧
    already_seated_row [⟨"A1", 8, 2, some "sam lee (2), "⟩] "Sam Lee" = none ∧
    bookAttempt [⟨"A1", 8, 2, some "sam lee (2), "⟩] "Sam Lee" 2 "A1" ≠
      .alreadySeated "A1" := by decide

/-- Claim C4 as amended: the duplicate check scans every table's guestList for
the full name as a case-SENSITIVE substring; a hit is a member table whose
guest text contains the name, the attempt then fails with `alreadySeated`
carrying that (first matching) table's id and no mutation occurs; and once a
name is successfully booked, every subsequent attempt with the same name —
the roster always reproduces the identical spelling — fails with
`alreadySeated` regardless of the table targeted. -/
theorem C4_duplicate_check :
    (∀ (tables : List Table) (fn : String) (t : Table),
        already_seated_row tables fn = some t →
        t ∈ tables ∧ ∃ g, t.Guest_List = some g ∧ strContains g fn = true) ∧
    (∀ (tables : List Table) (fn sel : String) (tc : Int) (t : Table),
        already_seated_row tables fn = some t →
        bookAttempt tables fn tc sel = .alreadySeated t.Table_ID) ∧
    (∀ (tables tables' : List Table) (fn sel : String) (tc : Int),
        sel ∈ (valid_tables tables tc).map Table.Table_ID →
        bookAttempt tables fn tc sel = .booked tables' →
        ∀ (tc' : Int) (sel' : String),
          ∃ id, bookAttempt tables' fn tc' sel' = .alreadySeated id) := by
  refine ⟨?_, ?_, ?_⟩
  · intro tables fn t h
    refine ⟨List.mem_of_find?_eq_some h, ?_⟩
    have hp := List.find?_some h
    cases hg : t.Guest_List with
    | none => rw [hg] at hp; simp at hp
    | some g => rw [hg] at hp; exact ⟨g, rfl, hp⟩
  · intro tables fn sel tc t h
    unfold bookAttempt
    rw [h]
  · intro tables tables' fn sel tc hsel hres tc' sel'
    rcases bookAttempt_booked_inv tables tables' fn sel tc hres with ⟨hdup, hval, htab⟩
    rcases List.mem_map.mp hsel with ⟨u, humem, huid⟩
    have hu : u ∈ tables := (List.mem_filter.mp humem).1
    rcases exists_first_id tables sel (List.mem_map.mpr ⟨u, hu, huid⟩) with
      ⟨pre, t, post, heq, htid, hpre⟩
    subst heq
    rw [updateFirst_append pre post t sel _ hpre htid] at htab
    subst htab
    have hmem : commitRow fn tc t ∈ pre ++ commitRow fn tc t :: post :=
      List.mem_append.mpr (Or.inr (List.mem_cons_self _ _))
    have hfound : (already_seated_row (pre ++ commitRow fn tc t :: post) fn).isSome := by
      unfold already_seated_row
      refine List.find?_isSome.mpr ⟨commitRow fn tc t, hmem, ?_⟩
      exact strContains_current_entry t.Guest_List fn tc
    rcases Option.isSome_iff_exists.mp hfound with ⟨u', hu'⟩
    refine ⟨u'.Table_ID, ?_⟩
    unfold bookAttempt
    rw [hu']

/-- Witness for C4: Jane Doe, already on table A1's guest list, attempts to
book 2 more seats on A2 and fails with `alreadySeated "A1"` (the spec's own
scenario). -/
theorem C4_duplicate_check_witness :
    bookAttempt [⟨"A1", 8, 8, some "Jane Doe (8)"⟩, ⟨"A2", 6, 0, some ""⟩]
      "Jane Doe" 2 "A2" = .alreadySeated "A1" :=
  C4_duplicate_check.2.1
    [⟨"A1", 8, 8, some "Jane Doe (8)"⟩, ⟨"A2", 6, 0, some ""⟩]
    "Jane Doe" "A2" 2 ⟨"A1", 8, 8, some "Jane Doe (8)"⟩ (by decide)

/-- Claim C5: a successful commit mutates exactly the first row carrying the
selected id — its taken grows by exactly the party size, its id and capacity
are untouched — and every other row (`pre` and `post`) reappears unchanged in
the persisted snapshot, guest lists included. -/
theorem C5_commit_frame (pre post : List Table) (t : Table)
    (fn sel : String) (tc : Int)
    (hpre : ∀ p ∈ pre, p.Table_ID ≠ sel) (ht : t.Table_ID = sel)
    (hdup : already_seated_row (pre ++ t :: post) fn = none)
    (hval : valid_tables (pre ++ t :: post) tc ≠ []) :
    bookAttempt (pre ++ t :: post) fn tc sel =
      .booked (pre ++ commitRow fn tc t :: post) ∧
    (commitRow fn tc t).Taken = t.Taken + tc ∧
    (commitRow fn tc t).Table_ID = t.Table_ID ∧
    (commitRow fn tc t).Capacity = t.Capacity :=
  ⟨bookAttempt_booked_eq pre post t fn sel tc hpre ht hdup hval, rfl, rfl, rfl⟩

/-- Witness for C5: with A1 (full) and A2 (empty), booking Sam Lee on A2
leaves A1 untouched and raises only A2's taken, by 2. -/
theorem C5_commit_frame_witness :
    bookAttempt [⟨"A1", 8, 8, some "Jane Doe (8)"⟩, ⟨"A2", 6, 0, some ""⟩]
        "Sam Lee" 2 "A2" =
      .booked ([⟨"A1", 8, 8, some "Jane Doe (8)"⟩] ++
        commitRow "Sam Lee" 2 ⟨"A2", 6, 0, some ""⟩ :: []) ∧
    (commitRow "Sam Lee" 2 ⟨"A2", 6, 0, some ""⟩).Taken =
      (Table.mk "A2" 6 0 (some "")).Taken + 2 ∧
    (commitRow "Sam Lee" 2 ⟨"A2", 6, 0, some ""⟩).Table_ID =
      (Table.mk "A2" 6 0 (some "")).Table_ID ∧
    (commitRow "Sam Lee" 2 ⟨"A2", 6, 0, some ""⟩).Capacity =
      (Table.mk "A2" 6 0 (some "")).Capacity :=
  C5_commit_frame [⟨"A1", 8, 8, some "Jane Doe (8)"⟩] [] ⟨"A2", 6, 0, some ""⟩
    "Sam Lee" "A2" 2 (by decide) rfl (by decide) (by decide)

/-- Claim C6, counterexample: `get_status` (lines 149-154) marks
`Remaining <= 4` as Nearly Full, so capacity 10, taken 7 (remaining 3) is
"🟡 Nearly Full", while the claim's rule — NearlyFull iff
`remaining < threshold` with the default threshold 3 — classifies the same
row as "🟢 Available". -/
theorem C6_threshold_cex :
    get_status ⟨"T", 10, 7, none⟩ = "🟡 Nearly Full" ∧
    statusSpec 3 ⟨"T", 10, 7, none⟩ = "🟢 Available" := by decide

/-- Claim C6 as amended: status is a pure function of the row — SoldOut when
`remaining <= 0`, NearlyFull when `remaining <= 4` (that is, the spec's shape
with the hardcoded exclusive threshold 5, not 3), else Available; the claim's
three concrete examples all hold: (10,10) is Sold Out, (10,8) is Nearly Full,
(10,5) is Available. -/
theorem C6_status_classification :
    (∀ t : Table, get_status t = statusSpec 5 t) ∧
    get_status ⟨"T", 10, 10, none⟩ = "🔴 Sold Out" ∧
    get_status ⟨"T", 10, 8, none⟩ = "🟡 Nearly Full" ∧
    get_status ⟨"T", 10, 5, none⟩ = "🟢 Available" := by
  refine ⟨?_, by decide, by decide, by decide⟩
  intro t
  unfold get_status statusSpec
  by_cases h0 : remaining t ≤ 0
  · simp [h0]
  · by_cases h4 : remaining t ≤ 4
    · have h5 : remaining t < 5 := by omega
      simp [h0, h4, h5]
    · have h5 : ¬ remaining t < 5 := by omega
      simp [h0, h4, h5]

/-- Claim C7 (access gate, modelled from the spec — no such code exists in
`src/streamlit_app.py`): codes stored as "4521" and as "4521.0" both match the
submission "4521"; an empty submission is "not yet attempted" and never a
denial; a denial happens exactly on a non-empty submission whose normalised
form differs from the stored one; and any non-granted gate outcome performs
no mutation. -/
theorem C7_access_code_gate :
    accessCodeMatches "4521" "4521" = true ∧
    accessCodeMatches "4521.0" "4521" = true ∧
    (∀ stored : String, accessCheck stored "" = .notYetAttempted) ∧
    (∀ stored submitted : String,
        accessCheck stored submitted = .denied ↔
          submitted ≠ "" ∧ accessCodeMatches stored submitted = false) ∧
    (∀ (stored submitted : String) (tables : List Table)
        (fn sel : String) (tc : Int),
        accessCheck stored submitted ≠ .granted →
        gatedBookAttempt stored submitted tables fn tc sel = none) := by
  refine ⟨by decide, by decide, ?_, ?_, ?_⟩
  · intro stored
    simp [accessCheck]
  · intro stored submitted
    unfold accessCheck
    by_cases he : submitted = ""
    · simp [he]
    · by_cases hm : accessCodeMatches stored submitted
      · simp [he, hm]
      · simp [he, hm]
  · intro stored submitted tables fn sel tc h
    unfold gatedBookAttempt
    cases hc : accessCheck stored submitted
    case granted => exact absurd hc h
    all_goals rfl

/-- Witness for C7: submitting "9999" against stored code "4521" is a denial,
and the gated attempt mutates nothing. -/
theorem C7_access_code_gate_witness :
    gatedBookAttempt "4521" "9999" [] "Sam Lee" 2 "A1" = none :=
  C7_access_code_gate.2.2.2.2 "4521" "9999" [] "Sam Lee" "A1" 2 (by decide)

/-- Claim C8, counterexample: with two roster rows both named Sam Lee, the
filter matches 2 rows yet `student_info` silently returns the first
(`.iloc[0]`, line 78) instead of failing with AmbiguousRecord as the claim
states. -/
theorem C8_ambiguous_record_cex :
    (([⟨"Lee", "Sam", 2⟩, ⟨"Lee", "Sam", 5⟩] : List Student).filter
        fun s => s.lastName == "Lee" && s.firstName == "Sam").length = 2 ∧
    student_info [⟨"Lee", "Sam", 2⟩, ⟨"Lee", "Sam", 5⟩] "Lee" "Sam" =
      some ⟨"Lee", "Sam", 2⟩ := by decide

/-- Claim C8 as amended: roster lookup filters on both names case-sensitively
and yields no record exactly when no row matches; any returned record is a
member matching both names; and the returned record is the FIRST matching
row — duplicates are resolved silently in favour of the earliest row, not
surfaced as AmbiguousRecord. -/
theorem C8_roster_lookup :
    (∀ (roster : List Student) (l f : String),
        student_info roster l f = none ↔
          ∀ s ∈ roster, ¬(s.lastName = l ∧ s.firstName = f)) ∧
    (∀ (pre post : List Student) (s : Student) (l f : String),
        s.lastName = l → s.firstName = f →
        (∀ p ∈ pre, ¬(p.lastName = l ∧ p.firstName = f)) →
        student_info (pre ++ s :: post) l f = some s) ∧
    (∀ (roster : List Student) (l f : String) (s : Student),
        student_info roster l f = some s →
        s ∈ roster ∧ s.lastName = l ∧ s.firstName = f) := by
  refine ⟨?_, ?_, ?_⟩
  · intro roster l f
    simp [student_info, List.head?_eq_none_iff, List.filter_eq_nil_iff, not_and]
  · intro pre post s l f hl hf hpre
    unfold student_info
    rw [List.filter_append]
    have h1 : pre.filter (fun q => q.lastName == l && q.firstName == f) = [] := by
      rw [List.filter_eq_nil_iff]
      intro p hp
      simp only [Bool.and_eq_true, beq_iff_eq, not_and]
      intro h1 h2
      exact hpre p hp ⟨h1, h2⟩
    rw [h1, List.filter_cons_of_pos (by simp [hl, hf])]
    rfl
  · intro roster l f s h
    unfold student_info at h
    cases hfil : roster.filter (fun q => q.lastName == l && q.firstName == f) with
    | nil => rw [hfil] at h; simp at h
    | cons a rest =>
      rw [hfil] at h
      simp only [List.head?_cons, Option.some.injEq] at h
      subst h
      have hmem : a ∈ roster.filter (fun q => q.lastName == l && q.firstName == f) := by
        rw [hfil]; exact List.mem_cons_self _ _
      have hsplit := List.mem_filter.mp hmem
      have hb := hsplit.2
      simp only [Bool.and_eq_true, beq_iff_eq] at hb
      exact ⟨hsplit.1, hb.1, hb.2⟩

/-- Witness for C8: looking up Sam Lee in a one-row roster returns that row. -/
theorem C8_roster_lookup_witness :
    student_info [⟨"Lee", "Sam", 2⟩] "Lee" "Sam" = some ⟨"Lee", "Sam", 2⟩ :=
  C8_roster_lookup.2.1 [] [] ⟨"Lee", "Sam", 2⟩ "Lee" "Sam" rfl rfl (by simp)

/-- Claim C9: the party size used throughout a sidebar booking — the
eligibility filter, the taken increment, and the recorded guest-list entry —
is exactly the identified student's `Tickets` allotment from the roster; the
flow takes no seat-count input from the requester, so nothing else can be
booked. -/
theorem C9_party_size_from_roster (roster : List Student) (stud : Student)
    (pre post : List Table) (t : Table) (l f sel : String)
    (hstud : student_info roster l f = some stud)
    (hpre : ∀ p ∈ pre, p.Table_ID ≠ sel) (ht : t.Table_ID = sel)
    (hdup : already_seated_row (pre ++ t :: post) (f ++ " " ++ l) = none)
    (hval : valid_tables (pre ++ t :: post) stud.Tickets ≠ []) :
    sidebarBook (pre ++ t :: post) roster l f sel =
      some (.booked (pre ++
        { t with
            Taken := t.Taken + stud.Tickets
            Guest_List := some (current_list t.Guest_List ++
              entry (f ++ " " ++ l) stud.Tickets) } :: post)) := by
  unfold sidebarBook
  rw [hstud]
  show some (bookAttempt (pre ++ t :: post) (f ++ " " ++ l) stud.Tickets sel) = _
  rw [bookAttempt_booked_eq pre post t (f ++ " " ++ l) sel stud.Tickets hpre ht hdup hval]
  rfl

/-- Witness for C9: Sam Lee holds 2 tickets in the roster, so the full
sidebar flow books exactly 2 seats and records "Sam Lee (2), ". -/
theorem C9_party_size_from_roster_witness :
    sidebarBook [⟨"A2", 6, 0, some ""⟩] [⟨"Lee", "Sam", 2⟩] "Lee" "Sam" "A2" =
      some (.booked [⟨"A2", 6, 2, some "Sam Lee (2), "⟩]) :=
  C9_party_size_from_roster [⟨"Lee", "Sam", 2⟩] ⟨"Lee", "Sam", 2⟩ [] []
    ⟨"A2", 6, 0, some ""⟩ "Lee" "Sam" "A2" rfl (by simp) rfl
    (by decide) (by decide)

/-- Claim C10: a missing (NaN) guest list or the literal string "nan" is
normalised to the empty string before the append (lines 110 / 242), so the
commit starts the list fresh with exactly the new entry and the text "nan"
surviving from the missing marker never reaches the stored guest list. -/
theorem C10_nan_guestlist (pre post : List Table) (t : Table)
    (fn sel : String) (tc : Int)
    (hg : t.Guest_List = none ∨ t.Guest_List = some "nan")
    (hpre : ∀ p ∈ pre, p.Table_ID ≠ sel) (ht : t.Table_ID = sel)
    (hdup : already_seated_row (pre ++ t :: post) fn = none)
    (hval : valid_tables (pre ++ t :: post) tc ≠ []) :
    current_list t.Guest_List = "" ∧
    bookAttempt (pre ++ t :: post) fn tc sel =
      .booked (pre ++
        { t with Taken := t.Taken + tc, Guest_List := some (entry fn tc) } :: post) := by
  have hcl : current_list t.Guest_List = "" := by
    rcases hg with hg | hg <;> rw [hg] <;> rfl
  have hcommit : commitRow fn tc t =
      { t with Taken := t.Taken + tc, Guest_List := some (entry fn tc) } := by
    simp [commitRow, hcl, empty_string_append]
  refine ⟨hcl, ?_⟩
  rw [bookAttempt_booked_eq pre post t fn sel tc hpre ht hdup hval, hcommit]

/-- Witness for C10: booking onto a table whose guest list cell is NaN yields
guest list exactly "Sam Lee (2), " with no stray "nan" text. -/
theorem C10_nan_guestlist_witness :
    current_list (Table.mk "A2" 6 0 none).Guest_List = "" ∧
    bookAttempt [⟨"A2", 6, 0, none⟩] "Sam Lee" 2 "A2" =
      .booked [⟨"A2", 6, 2, some "Sam Lee (2), "⟩] :=
  C10_nan_guestlist [] [] ⟨"A2", 6, 0, none⟩ "Sam Lee" "A2" 2 (Or.inl rfl)
    (by simp) rfl (by decide) (by decide)

end GradSeating
